import Mathlib

/-!
Verification of the instance-initialization core of a Vue-2 style
reactive UI library: the `_init` orchestrator, the internal-component
fast path, and the constructor-options resolver with its
modified-options diff.

The JavaScript source is embedded shallowly:
objects live in a heap of addresses, values carry JS identity
semantics (`DecidableEq` plays the role of `===`), component classes
are records of heap addresses, and the subsystem initializers that the
source consumes as external collaborators are recorded as events in a
trace.
-/

namespace VueInit

/-- A JavaScript value as far as this module observes it: primitives
compared by value, objects and component classes compared by reference
identity.  `undefined` stands for `undefined` (also the result of a missing
property lookup). -/
inductive JsVal where
  | undefined
  | vbool (b : Bool)
  | vnum (n : Int)
  | vstr (s : String)
  | ref (a : Nat)
  | cls (c : Nat)
deriving DecidableEq, Repr

/-- JavaScript truthiness of a value. -/
def truthy : JsVal → Bool
  | .undefined => false
  | .vbool b => b
  | .vnum n => decide (n ≠ 0)
  | .vstr s => decide (s ≠ "")
  | .ref _ => true
  | .cls _ => true

/-- Conversion of a value used as a property key (JS string coercion;
only the string case is exercised by the source). -/
def jsToKey : JsVal → String
  | .vstr s => s
  | .vnum n => toString n
  | .vbool b => toString b
  | .undefined => "undefined"
  | .ref _ => "[object Object]"
  | .cls _ => "[object Object]"

/-- A heap object: an optional prototype reference and the own
properties in insertion order. -/
structure Obj where
  proto : Option Nat
  fields : List (String × JsVal)
deriving DecidableEq, Repr

/-- The heap: allocated objects keyed by address, plus the next fresh
address. -/
structure Heap where
  objs : List (Nat × Obj)
  next : Nat
deriving DecidableEq, Repr

/-- Own-property lookup in a field list (first match). -/
def getOwnFields : List (String × JsVal) → String → Option JsVal
  | [], _ => none
  | (k, v) :: t, key => if k = key then some v else getOwnFields t key

/-- Property write on a field list: overwrite in place when the key
exists, otherwise append (JS property insertion order). -/
def setF : List (String × JsVal) → String → JsVal → List (String × JsVal)
  | [], key, v => [(key, v)]
  | (k, w) :: t, key, v => if k = key then (key, v) :: t else (k, w) :: setF t key v

/-- Fetch the object stored at an address. -/
def lookupObj (h : Heap) (a : Nat) : Option Obj :=
  go h.objs a
where
  go : List (Nat × Obj) → Nat → Option Obj
    | [], _ => none
    | (b, o) :: t, a => if b = a then some o else go t a

/-- Write one own property of the object at an address (no-op when the
address is unallocated). -/
def setField (h : Heap) (a : Nat) (key : String) (v : JsVal) : Heap :=
  { h with objs := go h.objs }
where
  go : List (Nat × Obj) → List (Nat × Obj)
    | [] => []
    | (b, o) :: t =>
      if b = a then (b, { o with fields := setF o.fields key v }) :: t
      else (b, o) :: go t

/-- Allocate a fresh object, returning the new heap and its address. -/
def alloc (h : Heap) (o : Obj) : Heap × Nat :=
  ({ objs := (h.next, o) :: h.objs, next := h.next + 1 }, h.next)

/-- Own property read on the object at an address. -/
def getOwn (h : Heap) (a : Nat) (key : String) : Option JsVal :=
  match lookupObj h a with
  | none => none
  | some o => getOwnFields o.fields key

/-- Fuel-bounded property read walking the prototype chain, yielding
`undefined` for a missing property as in JS. -/
def getPropN (h : Heap) : Nat → Nat → String → JsVal
  | 0, _, _ => .undefined
  | n + 1, a, key =>
    match lookupObj h a with
    | none => .undefined
    | some o =>
      match getOwnFields o.fields key with
      | some v => v
      | none =>
        match o.proto with
        | none => .undefined
        | some p => getPropN h n p key

/-- Property read with enough fuel for any acyclic prototype chain in
the heap. -/
def getProp (h : Heap) (a : Nat) (key : String) : JsVal :=
  getPropN h (h.objs.length + 1) a key

/-- Property read through a value: reading a property of a non-object
is totalized to `undefined`. -/
def getPropVal (h : Heap) (v : JsVal) (key : String) : JsVal :=
  match v with
  | .ref a => getProp h a key
  | _ => .undefined

/-- Fuel-bounded for-in key enumeration: own keys in insertion order,
then non-shadowed prototype keys. -/
def enumKeysN (h : Heap) : Nat → Nat → List String
  | 0, _ => []
  | n + 1, a =>
    match lookupObj h a with
    | none => []
    | some o =>
      let own := o.fields.map (·.1)
      own ++ ((match o.proto with
               | none => []
               | some p => enumKeysN h n p).filter (fun k => !own.contains k))

/-- For-in key enumeration with enough fuel for any acyclic prototype
chain in the heap. -/
def enumKeys (h : Heap) (a : Nat) : List String :=
  enumKeysN h (h.objs.length + 1) a

/-- A component class: the fields of a constructor function that the
source reads and writes.  Every `Nat` is a heap address of a
configuration object; `sup` is the optional parent class (the
`super` field of the source). -/
structure CtorRec where
  options : Nat
  sup : Option Nat
  superOptions : Option Nat
  extendOptions : Nat
  sealedOptions : Nat
deriving DecidableEq, Repr

/-- The mutable world: the object heap together with the table of
component classes keyed by class id. -/
structure World where
  heap : Heap
  classes : List (Nat × CtorRec)
deriving DecidableEq, Repr

/-- Class-table lookup (first match). -/
def getClassList : List (Nat × CtorRec) → Nat → Option CtorRec
  | [], _ => none
  | (j, c) :: t, i => if j = i then some c else getClassList t i

def getClass (w : World) (i : Nat) : Option CtorRec :=
  getClassList w.classes i

/-- Class-table update (replace the first entry, append when new). -/
def setClassList : List (Nat × CtorRec) → Nat → CtorRec → List (Nat × CtorRec)
  | [], i, c => [(i, c)]
  | (j, d) :: t, i, c => if j = i then (i, c) :: t else (j, d) :: setClassList t i c

def setClass (w : World) (i : Nat) (c : CtorRec) : World :=
  { w with classes := setClassList w.classes i c }

/-- The `options` address of a class, defaulting to 0 for a missing
class (never hit on well-formed worlds). -/
def optionsOf (w : World) (i : Nat) : Nat :=
  match getClass w i with
  | some c => c.options
  | none => 0

/-- One class-table entry is well formed when its parent id is
strictly smaller than its own id (the acyclic inheritance chains of
the source, phrased so recursion terminates). -/
def classEntryOK (p : Nat × CtorRec) : Bool :=
  match p.2.sup with
  | none => true
  | some s => decide (s < p.1)

/-- Decidable well-formedness of a class table. -/
def WFClasses (w : World) : Prop :=
  w.classes.all classEntryOK = true

instance (w : World) : Decidable (WFClasses w) :=
  inferInstanceAs (Decidable (w.classes.all classEntryOK = true))

/-- Modelled from the spec: the `extend` utility of the Options Merge
Engine collaborator (missing `util` module), copying each key of a
source mapping onto a target object in enumeration order, mutating the
target in place.  Here the source mapping is the modified-options diff,
already represented as its ordered key-value pairs. -/
def extendFields (h : Heap) (a : Nat) (m : List (String × JsVal)) : Heap :=
  m.foldl (fun h2 p => setField h2 a p.1 p.2) h

/-- `resolveModifiedOptions` of the source: compare every for-in key of
the current `Ctor.options` against `Ctor.sealedOptions` by JS identity
and collect the differing keys, returning `none` when nothing was
modified (the `undefined` result of the source). -/
def resolveModifiedOptions (h : Heap) (c : CtorRec) : Option (List (String × JsVal)) :=
  let latest := c.options
  let sealed := c.sealedOptions
  let mods := (enumKeys h latest).filterMap (fun key =>
    if getProp h latest key = getProp h sealed key then none
    else some (key, getProp h latest key))
  match mods with
  | [] => none
  | _ => some mods

/-- Modelled from the spec: `mergeOptions` of the Options Merge Engine
collaborator (missing `util` module): combine two configuration
objects into a freshly allocated one, the child mapping overriding the
parent per key.  Per-key strategies beyond child-overrides-parent are
out of scope of this core. -/
def mergeOptions (h : Heap) (pa ca : Nat) : Heap × Nat :=
  let ck := enumKeys h ca
  let pk := enumKeys h pa
  let cf := ck.map (fun k => (k, getProp h ca k))
  let pf := (pk.filter (fun k => !ck.contains k)).map (fun k => (k, getProp h pa k))
  alloc h { proto := none, fields := cf ++ pf }

/-- The self-registration step of `resolveConstructorOptions`: when the
merged options declare a truthy `name`, register the class under that
name in its own `components` map. -/
def selfRegister (h : Heap) (i : Nat) (merged : Nat) : Heap :=
  let nameV := getProp h merged "name"
  if truthy nameV then
    match getProp h merged "components" with
    | JsVal.ref ca => setField h ca (jsToKey nameV) (JsVal.cls i)
    | _ => h
  else h

/-- The ancestor-changed branch of `resolveConstructorOptions`: update
the cached `superOptions`, fold the modified-options diff into
`extendOptions` in place, re-merge, store the merged object as the new
`Ctor.options`, self-register under `name`, and return the merged
options. -/
def superChanged (w1 : World) (i : Nat) (c1 : CtorRec) (so : Nat) : World × Nat :=
  let c2 : CtorRec := { c1 with superOptions := some so }
  let w2 := setClass w1 i c2
  let w3 :=
    match resolveModifiedOptions w2.heap c2 with
    | none => w2
    | some m => { w2 with heap := extendFields w2.heap c2.extendOptions m }
  let mr := mergeOptions w3.heap so c2.extendOptions
  let w4 := setClass { w3 with heap := mr.1 } i { c2 with options := mr.2 }
  ({ w4 with heap := selfRegister w4.heap i mr.2 }, mr.2)

/-- `resolveConstructorOptions` of the source, fuel-bounded for the
recursion along the `super` chain (for a chain of decreasing class
ids, fuel `i + 1` always suffices; at fuel 0 the super branch is
skipped).  Returns the updated world and the address of the resolved
configuration object. -/
def resolveConstructorOptions : Nat → World → Nat → World × Nat
  | 0, w, i => (w, optionsOf w i)
  | fuel + 1, w, i =>
    match getClass w i with
    | none => (w, 0)
    | some c =>
      match c.sup with
      | none => (w, c.options)
      | some s =>
        let r := resolveConstructorOptions fuel w s
        match getClass r.1 i with
        | none => (r.1, c.options)
        | some c1 =>
          if c1.superOptions = some r.2 then (r.1, c.options)
          else superChanged r.1 i c1 r.2

/-- `initInternalComponent` of the source: allocate `vm.$options` with
the constructor options as prototype, then copy the known fields off
the supplied options and the component-options payload of its parent
virtual node; finally override `render`/`staticRenderFns` when a
render function was supplied.  Returns the world and the new
`$options` address. -/
def initInternalComponent (w : World) (ctorId : Nat) (optionsA : Nat) : World × Nat :=
  let ar := alloc w.heap { proto := some (optionsOf w ctorId), fields := [] }
  let h1 := ar.1
  let opts := ar.2
  let parentVnode := getProp h1 optionsA "_parentVnode"
  let h2 := setField h1 opts "parent" (getProp h1 optionsA "parent")
  let h3 := setField h2 opts "_parentVnode" parentVnode
  let vco := getPropVal h3 parentVnode "componentOptions"
  let h4 := setField h3 opts "propsData" (getPropVal h3 vco "propsData")
  let h5 := setField h4 opts "_parentListeners" (getPropVal h4 vco "listeners")
  let h6 := setField h5 opts "_renderChildren" (getPropVal h5 vco "children")
  let h7 := setField h6 opts "_componentTag" (getPropVal h6 vco "tag")
  let h8 :=
    if truthy (getProp h7 optionsA "render") then
      setField (setField h7 opts "render" (getProp h7 optionsA "render"))
        opts "staticRenderFns" (getProp h7 optionsA "staticRenderFns")
    else h7
  ({ w with heap := h8 }, opts)

/-- One observable step of the initializer: the external subsystem
initializers and hook invocations are recorded as trace events. -/
inductive InitEvent where
  | proxy
  | selfAssign
  | lifecycle
  | events
  | render
  | hook (name : String)
  | injections
  | stateInit
  | provide
  | mount (el : JsVal)
  | warning (msg : String)
deriving DecidableEq, Repr

/-- The instance fields populated by `_init` itself (`_uid`, `_isVue`,
`$options`, the constructor, and whether `_renderProxy` was set to the
instance itself, which the production branch does). -/
structure Vm where
  uidVal : Nat
  isVue : Bool
  optionsA : Nat
  ctorId : Nat
  renderProxySelf : Bool
deriving DecidableEq, Repr

/-- One construction request: the constructor of the instance and the
optional options argument (a heap address, or `none` for the absent
argument). -/
structure InitInput where
  ctorId : Nat
  options : Option Nat
deriving DecidableEq, Repr

/-- The module-level `uid` counter starts at 0 at process start. -/
def uidStart : Nat := 0

/-- The general merge path of `_init`:
`vm.$options = mergeOptions(resolveConstructorOptions(vm.constructor), options or empty, vm)`. -/
def mergePath (fuel : Nat) (w : World) (ctorId : Nat) (optA : Option Nat) : World × Nat :=
  let r := resolveConstructorOptions fuel w ctorId
  let po :=
    match optA with
    | some a => (r.1.heap, a)
    | none => alloc r.1.heap { proto := none, fields := [] }
  let mr := mergeOptions po.1 r.2 po.2
  ({ r.1 with heap := mr.1 }, mr.2)

/-- The options branch of `_init`: the internal-component fast path
when the argument is present and marked `_isComponent`, the general
merge path otherwise. -/
def initOptionsBranch (fuel : Nat) (w : World) (inp : InitInput) : World × Nat :=
  match inp.options with
  | some a =>
    if truthy (getProp w.heap a "_isComponent") then
      initInternalComponent w inp.ctorId a
    else mergePath fuel w inp.ctorId (some a)
  | none => mergePath fuel w inp.ctorId none

/-- `Vue.prototype._init` of the source: assign the next `_uid`, set
`_isVue`, resolve `$options` through the branch above, then run the
fixed sequence of subsystem initializers and lifecycle hooks, and
finally auto-mount when the resolved options carry a truthy `el`.
Returns the updated world, the incremented uid counter, the populated
instance, and the event trace. -/
def _init (fuel : Nat) (dev : Bool) (w : World) (counter : Nat) (inp : InitInput) :
    World × Nat × Vm × List InitEvent :=
  let b := initOptionsBranch fuel w inp
  let vm : Vm :=
    { uidVal := counter, isVue := true, optionsA := b.2, ctorId := inp.ctorId,
      renderProxySelf := !dev }
  let el := getProp b.1.heap b.2 "el"
  let tr : List InitEvent :=
    [.proxy, .selfAssign, .lifecycle, .events, .render, .hook "beforeCreate",
     .injections, .stateInit, .provide, .hook "created"] ++
    (if truthy el then [.mount el] else [])
  (b.1, counter + 1, vm, tr)

/-- The fixed core of the initializer trace, for stating order facts. -/
def coreInitTrace : List InitEvent :=
  [.proxy, .selfAssign, .lifecycle, .events, .render, .hook "beforeCreate",
   .injections, .stateInit, .provide, .hook "created"]

/-- The development warning text of the `Vue` constructor. -/
def warnMsg : String :=
  "Vue is a constructor and should be called with the `new` keyword"

/-- Outcome of one `Vue` constructor invocation: either a completed
construction (world, counter, instance, event trace) or a thrown
TypeError, carrying the events emitted before the throw. -/
inductive VueOutcome where
  | ok (w : World) (counter : Nat) (vm : Vm) (tr : List InitEvent)
  | typeError (tr : List InitEvent)
deriving DecidableEq, Repr

/-- Whether a constructor invocation completed. -/
def completedConstruction : VueOutcome → Bool
  | .ok _ _ _ _ => true
  | .typeError _ => false

/-- The `Vue` constructor function.  The source is an ES module, hence
strict mode: under a plain call without `new` the receiver `this` is
`undefined` (and would lack `_init` in sloppy mode as well), so after
the development warning the `this._init(options)` dispatch throws a
TypeError and no initialization step runs.  Only a receiver that is a
`Vue` instance (the `new` convention) carries `_init`, which then runs
to completion. -/
def Vue (fuel : Nat) (dev : Bool) (isInstance : Bool) (w : World) (counter : Nat)
    (inp : InitInput) : VueOutcome :=
  let pre : List InitEvent :=
    if dev && !isInstance then [.warning warnMsg] else []
  if isInstance then
    let r := _init fuel dev w counter inp
    .ok r.1 r.2.1 r.2.2.1 (pre ++ r.2.2.2)
  else
    .typeError pre

/-- Run a sequence of constructions through `_init`, threading the
world and the uid counter; returns the final world, the final counter,
and the `_uid` values assigned in construction order. -/
def runInits (fuel : Nat) (dev : Bool) : List InitInput → World → Nat → World × Nat × List Nat
  | [], w, c => (w, c, [])
  | inp :: rest, w, c =>
    let r := _init fuel dev w c inp
    let rec2 := runInits fuel dev rest r.1 r.2.1
    (rec2.1, rec2.2.1, r.2.2.1.uidVal :: rec2.2.2)

/-- Recognizer for mount events in a trace. -/
def isMount : InitEvent → Bool
  | .mount _ => true
  | _ => false

/-- Claim C1: every construction through `_init` runs the subsystem
initializers and hooks in the fixed order proxy install, `_self`
assignment, lifecycle relations, events, render, the `beforeCreate`
hook, injections, reactive state, provide, the `created` hook; hence
`beforeCreate` fires strictly before reactive state is initialized and
`created` fires strictly after state, injections and provisions. -/
theorem init_lifecycle_order (fuel : Nat) (dev : Bool) (w : World) (counter : Nat)
    (inp : InitInput) :
    (_init fuel dev w counter inp).2.2.2 =
      coreInitTrace ++
        (if truthy (getProp (_init fuel dev w counter inp).1.heap
              (_init fuel dev w counter inp).2.2.1.optionsA "el")
         then [.mount (getProp (_init fuel dev w counter inp).1.heap
              (_init fuel dev w counter inp).2.2.1.optionsA "el")]
         else []) ∧
    coreInitTrace =
      [.proxy, .selfAssign, .lifecycle, .events, .render, .hook "beforeCreate",
       .injections, .stateInit, .provide, .hook "created"] ∧
    coreInitTrace.indexOf (.hook "beforeCreate") < coreInitTrace.indexOf .stateInit ∧
    coreInitTrace.indexOf .injections < coreInitTrace.indexOf .stateInit ∧
    coreInitTrace.indexOf .stateInit < coreInitTrace.indexOf (.hook "created") ∧
    coreInitTrace.indexOf .injections < coreInitTrace.indexOf (.hook "created") ∧
    coreInitTrace.indexOf .provide < coreInitTrace.indexOf (.hook "created") := by
  refine ⟨rfl, rfl, ?_, ?_, ?_, ?_, ?_⟩ <;> decide

/-- Helper for claim C2: the uid values assigned by a run of
constructions starting at counter `c` are `c, c+1, ...` in order, and
the counter advances by the number of constructions. -/
theorem runInits_uid_values (fuel : Nat) (dev : Bool) (inps : List InitInput)
    (w : World) (c : Nat) :
    (runInits fuel dev inps w c).2.2 = List.range' c inps.length ∧
    (runInits fuel dev inps w c).2.1 = c + inps.length := by
  induction inps generalizing w c with
  | nil => simp [runInits]
  | cons inp rest ih =>
    have h1 := (ih (_init fuel dev w c inp).1 (c + 1)).1
    have h2 := (ih (_init fuel dev w c inp).1 (c + 1)).2
    refine ⟨?_, ?_⟩
    · show (c :: (runInits fuel dev rest (_init fuel dev w c inp).1 (c + 1)).2.2) =
        List.range' c (inp :: rest).length
      rw [h1]
      simp [List.range']
    · show (runInits fuel dev rest (_init fuel dev w c inp).1 (c + 1)).2.1 =
        c + (inp :: rest).length
      rw [h2]
      simp only [List.length_cons]
      omega

/-- Claim C2: starting from the process-start counter value 0, any
sequence of N constructions through `_init` assigns the uid values
exactly 0, 1, ..., N-1 in construction order (no gaps, no repeats),
the counter ends at N, and every single construction increments the
counter by exactly one (it is never reset or decremented). -/
theorem init_uid_sequence (fuel : Nat) (dev : Bool) (inps : List InitInput) (w : World) :
    (runInits fuel dev inps w uidStart).2.2 = List.range inps.length ∧
    (runInits fuel dev inps w uidStart).2.1 = inps.length ∧
    (∀ w2 c inp, (_init fuel dev w2 c inp).2.1 = c + 1) ∧
    (∀ w2 c inp, (_init fuel dev w2 c inp).2.2.1.uidVal = c) := by
  have h := runInits_uid_values fuel dev inps w uidStart
  refine ⟨?_, ?_, fun w2 c inp => rfl, fun w2 c inp => rfl⟩
  · rw [h.1, uidStart, List.range_eq_range']
  · rw [h.2, uidStart, Nat.zero_add]

/-- Helper for claim C6: filtering the mount events out of a core
trace extended by the conditional mount step leaves exactly the
conditional mount step. -/
theorem filter_mount_core (el : JsVal) :
    (coreInitTrace ++ (if truthy el then [InitEvent.mount el] else [])).filter isMount =
      (if truthy el then [InitEvent.mount el] else []) := by
  cases h : truthy el <;> simp [coreInitTrace, isMount]

/-- Claim C6: at the end of `_init`, the mount entry point is invoked
exactly when the resolved `$options` carry a truthy `el`, and then
with that very value; with no (truthy) `el` no mount happens and
mounting is left to an explicit external call. -/
theorem init_auto_mount (fuel : Nat) (dev : Bool) (w : World) (counter : Nat)
    (inp : InitInput) :
    ((_init fuel dev w counter inp).2.2.2.filter isMount) =
      (if truthy (getProp (_init fuel dev w counter inp).1.heap
            (_init fuel dev w counter inp).2.2.1.optionsA "el")
       then [.mount (getProp (_init fuel dev w counter inp).1.heap
            (_init fuel dev w counter inp).2.2.1.optionsA "el")]
       else []) :=
  filter_mount_core _

/-- Counterexample to claim C9: at a concrete construction request in
a development build, invoking the constructor without `new` emits the
warning and then the `this._init(options)` dispatch throws on the
undefined strict-mode receiver — the outcome is a TypeError whose
trace holds the warning alone, so construction did not proceed and the
`_init` sequence never ran. -/
theorem vue_without_new_construction_aborts :
    Vue 2 true false { heap := { objs := [], next := 0 }, classes := [] } 0
        { ctorId := 0, options := none } =
      .typeError [.warning warnMsg] ∧
    completedConstruction
      (Vue 2 true false { heap := { objs := [], next := 0 }, classes := [] } 0
        { ctorId := 0, options := none }) = false :=
  ⟨rfl, rfl⟩

/-- Claim C9 as amended: invoked without the proper convention in a
development build, the constructor reports the warning, which is
itself non-fatal (the function does not return early and still
attempts the `_init` dispatch), but the dispatch on the undefined
strict-mode receiver throws a TypeError before any initialization
step, so the outcome is an aborted construction whose trace holds
exactly the warning; under the proper convention no warning is
emitted and construction completes the full `_init` sequence, reaching
the `created` hook. -/
theorem vue_without_new_warns_then_throws (fuel : Nat) (w : World) (counter : Nat)
    (inp : InitInput) :
    Vue fuel true false w counter inp = .typeError [.warning warnMsg] ∧
    completedConstruction (Vue fuel true false w counter inp) = false ∧
    (∀ dev, Vue fuel dev true w counter inp =
      .ok (_init fuel dev w counter inp).1 (_init fuel dev w counter inp).2.1
        (_init fuel dev w counter inp).2.2.1 (_init fuel dev w counter inp).2.2.2) ∧
    InitEvent.hook "created" ∈ (_init fuel true w counter inp).2.2.2 := by
  refine ⟨rfl, rfl, fun dev => by simp [Vue], ?_⟩
  show InitEvent.hook "created" ∈
    coreInitTrace ++ (if truthy (getProp (_init fuel true w counter inp).1.heap
        (_init fuel true w counter inp).2.2.1.optionsA "el")
      then [InitEvent.mount (getProp (_init fuel true w counter inp).1.heap
        (_init fuel true w counter inp).2.2.1.optionsA "el")] else [])
  have : InitEvent.hook "created" ∈ coreInitTrace := by decide
  simp [this]

/-- A fast-path construction scenario: address 0 holds the constructor
options (own fields `fs`), address 1 the supplied internal component
options, address 2 the parent virtual node, address 3 its
component-options payload; all field values are arbitrary. -/
def w4ex (fs : List (String × JsVal)) (pv ic rv sv pd li ch tg : JsVal) : World :=
  { heap :=
      { objs :=
          [ (0, { proto := none, fields := fs }),
            (1, { proto := none, fields :=
                   [("parent", pv), ("_parentVnode", .ref 2),
                    ("_isComponent", ic), ("render", rv), ("staticRenderFns", sv)] }),
            (2, { proto := none, fields := [("componentOptions", .ref 3)] }),
            (3, { proto := none, fields :=
                   [("propsData", pd), ("listeners", li), ("children", ch), ("tag", tg)] }) ],
        next := 4 },
    classes := [ (0, { options := 0, sup := none, superOptions := none,
                       extendOptions := 0, sealedOptions := 0 }) ] }

/-- The world produced by the fast path on `w4ex`: a fresh `$options`
object at address 4 whose prototype is the constructor options, the
explicit fields copied, and `render`/`staticRenderFns` only when a
truthy render function was supplied. -/
def w4post (fs : List (String × JsVal)) (pv ic rv sv pd li ch tg : JsVal) : World :=
  { heap :=
      { objs :=
          [ (4, { proto := some 0, fields :=
                   [("parent", pv), ("_parentVnode", .ref 2), ("propsData", pd),
                    ("_parentListeners", li), ("_renderChildren", ch),
                    ("_componentTag", tg)] ++
                   (if truthy rv then [("render", rv), ("staticRenderFns", sv)] else []) }),
            (0, { proto := none, fields := fs }),
            (1, { proto := none, fields :=
                   [("parent", pv), ("_parentVnode", .ref 2),
                    ("_isComponent", ic), ("render", rv), ("staticRenderFns", sv)] }),
            (2, { proto := none, fields := [("componentOptions", .ref 3)] }),
            (3, { proto := none, fields :=
                   [("propsData", pd), ("listeners", li), ("children", ch), ("tag", tg)] }) ],
        next := 5 },
    classes := [ (0, { options := 0, sup := none, superOptions := none,
                       extendOptions := 0, sealedOptions := 0 }) ] }

/-- Execution of the fast path on the scenario world. -/
theorem w4run_eq (fs : List (String × JsVal)) (pv ic rv sv pd li ch tg : JsVal) :
    initInternalComponent (w4ex fs pv ic rv sv pd li ch tg) 0 1 =
    (w4post fs pv ic rv sv pd li ch tg, 4) := by
  cases htr : truthy rv <;>
    simp [initInternalComponent, w4ex, w4post, htr, alloc, setField, setField.go, getProp,
      getPropN, lookupObj, lookupObj.go, getOwnFields, getPropVal, optionsOf, getClass,
      getClassList, setF]

/-- The own keys written by the fast path (the render pair only when a
truthy render function was supplied). -/
def fastPathKeys (rv : JsVal) : List String :=
  ["parent", "_parentVnode", "propsData", "_parentListeners",
   "_renderChildren", "_componentTag"] ++
  (if truthy rv then ["render", "staticRenderFns"] else [])

/-- Claim C4: on a fast-path construction, the new `$options` (address
4) has as prototype exactly the constructor current options; `parent`
and `_parentVnode` equal the supplied options fields; `propsData`,
`_parentListeners`, `_renderChildren`, `_componentTag` equal the
component-options payload of the supplied virtual node; a supplied
truthy render function overrides `render`/`staticRenderFns`; every
field not explicitly set falls through to the prototype; and `_init`
routes an `_isComponent`-marked options argument through this path. -/
theorem fast_path_options (fs : List (String × JsVal)) (pv ic rv sv pd li ch tg : JsVal) :
    (initInternalComponent (w4ex fs pv ic rv sv pd li ch tg) 0 1).2 = 4 ∧
    (lookupObj (initInternalComponent (w4ex fs pv ic rv sv pd li ch tg) 0 1).1.heap 4).map
        Obj.proto =
      some (some (optionsOf (w4ex fs pv ic rv sv pd li ch tg) 0)) ∧
    getOwn (initInternalComponent (w4ex fs pv ic rv sv pd li ch tg) 0 1).1.heap 4 "parent" =
      some pv ∧
    getOwn (initInternalComponent (w4ex fs pv ic rv sv pd li ch tg) 0 1).1.heap 4
        "_parentVnode" = some (.ref 2) ∧
    getOwn (initInternalComponent (w4ex fs pv ic rv sv pd li ch tg) 0 1).1.heap 4
        "propsData" = some pd ∧
    getOwn (initInternalComponent (w4ex fs pv ic rv sv pd li ch tg) 0 1).1.heap 4
        "_parentListeners" = some li ∧
    getOwn (initInternalComponent (w4ex fs pv ic rv sv pd li ch tg) 0 1).1.heap 4
        "_renderChildren" = some ch ∧
    getOwn (initInternalComponent (w4ex fs pv ic rv sv pd li ch tg) 0 1).1.heap 4
        "_componentTag" = some tg ∧
    (truthy rv = true →
      getOwn (initInternalComponent (w4ex fs pv ic rv sv pd li ch tg) 0 1).1.heap 4
          "render" = some rv ∧
      getOwn (initInternalComponent (w4ex fs pv ic rv sv pd li ch tg) 0 1).1.heap 4
          "staticRenderFns" = some sv) ∧
    (∀ k, k ∉ fastPathKeys rv →
      getProp (initInternalComponent (w4ex fs pv ic rv sv pd li ch tg) 0 1).1.heap 4 k =
      getProp (initInternalComponent (w4ex fs pv ic rv sv pd li ch tg) 0 1).1.heap 0 k) ∧
    (truthy ic = true → ∀ fuel dev c,
      (_init fuel dev (w4ex fs pv ic rv sv pd li ch tg) c
          { ctorId := 0, options := some 1 }).2.2.1.optionsA = 4) := by
  have hrun := w4run_eq fs pv ic rv sv pd li ch tg
  rw [hrun]
  refine ⟨rfl, ?_, ?_, ?_, ?_, ?_, ?_, ?_, ?_, ?_, ?_⟩
  · simp [w4post, lookupObj, lookupObj.go, w4ex, optionsOf, getClass, getClassList]
  · simp [w4post, getOwn, lookupObj, lookupObj.go, getOwnFields]
  · simp [w4post, getOwn, lookupObj, lookupObj.go, getOwnFields]
  · simp [w4post, getOwn, lookupObj, lookupObj.go, getOwnFields]
  · simp [w4post, getOwn, lookupObj, lookupObj.go, getOwnFields]
  · simp [w4post, getOwn, lookupObj, lookupObj.go, getOwnFields]
  · simp [w4post, getOwn, lookupObj, lookupObj.go, getOwnFields]
  · intro htr
    simp [w4post, getOwn, lookupObj, lookupObj.go, getOwnFields, htr]
  · intro k hk
    simp only [fastPathKeys, List.mem_append, List.mem_cons, List.not_mem_nil, or_false,
      not_or] at hk
    obtain ⟨⟨h1, h2, h3, h4, h5, h6⟩, h7⟩ := hk
    cases htr : truthy rv with
    | false =>
      simp [w4post, getProp, getPropN, lookupObj, lookupObj.go, getOwnFields, htr,
        Ne.symm h1, Ne.symm h2, Ne.symm h3, Ne.symm h4, Ne.symm h5, Ne.symm h6]
    | true =>
      simp only [htr, if_true, List.mem_cons, List.not_mem_nil, or_false, not_or] at h7
      simp [w4post, getProp, getPropN, lookupObj, lookupObj.go, getOwnFields, htr,
        Ne.symm h1, Ne.symm h2, Ne.symm h3, Ne.symm h4, Ne.symm h5, Ne.symm h6,
        Ne.symm h7.1, Ne.symm h7.2]
  · intro hic fuel dev c
    have hcond :
        getProp (w4ex fs pv ic rv sv pd li ch tg).heap 1 "_isComponent" = ic := by
      simp [w4ex, getProp, getPropN, lookupObj, lookupObj.go, getOwnFields]
    simp [_init, initOptionsBranch, hcond, hic, hrun]

/-- Witness for claim C4 at concrete field values. -/
theorem fast_path_options_witness :
    getOwn (initInternalComponent
        (w4ex [("data", .vnum 1)] (.vnum 11) (.vbool true) (.vnum 12) (.vnum 13)
          (.vnum 14) (.vnum 15) (.vnum 16) (.vstr "tg")) 0 1).1.heap 4 "parent" =
      some (.vnum 11) ∧
    getProp (initInternalComponent
        (w4ex [("data", .vnum 1)] (.vnum 11) (.vbool true) (.vnum 12) (.vnum 13)
          (.vnum 14) (.vnum 15) (.vnum 16) (.vstr "tg")) 0 1).1.heap 4 "data" =
      getProp (initInternalComponent
        (w4ex [("data", .vnum 1)] (.vnum 11) (.vbool true) (.vnum 12) (.vnum 13)
          (.vnum 14) (.vnum 15) (.vnum 16) (.vstr "tg")) 0 1).1.heap 0 "data" :=
  ⟨(fast_path_options [("data", .vnum 1)] (.vnum 11) (.vbool true) (.vnum 12) (.vnum 13)
      (.vnum 14) (.vnum 15) (.vnum 16) (.vstr "tg")).2.2.1,
   (fast_path_options [("data", .vnum 1)] (.vnum 11) (.vbool true) (.vnum 12) (.vnum 13)
      (.vnum 14) (.vnum 15) (.vnum 16) (.vstr "tg")).2.2.2.2.2.2.2.2.2.1 "data" (by decide)⟩

/-- A subclass scenario for the resolver: class 0 is the parent (its
options at address 0), class 1 the subclass with current options at
address 1 carrying a key `foo` (value `v`) attached after the last
seal, sealed snapshot at address 2 (without `foo`), declared
`extendOptions` at address 3 (key `bar`), and a stale cached
`superOptions` at address 4 (the fresh parent resolution yields
address 0). -/
def w3ex (v : JsVal) : World :=
  { heap :=
      { objs :=
          [ (0, { proto := none, fields := [("baz", .vnum 2)] }),
            (1, { proto := none, fields := [("foo", v)] }),
            (2, { proto := none, fields := [] }),
            (3, { proto := none, fields := [("bar", .vnum 1)] }),
            (4, { proto := none, fields := [] }) ],
        next := 5 },
    classes :=
      [ (0, { options := 0, sup := none, superOptions := none,
              extendOptions := 0, sealedOptions := 0 }),
        (1, { options := 1, sup := some 0, superOptions := some 4,
              extendOptions := 3, sealedOptions := 2 }) ] }

/-- The world after resolving class 1 of `w3ex`: `superOptions`
re-cached to address 0, `extendOptions` (still address 3) extended in
place with the late-attached `foo`, and the re-merged options
allocated at address 5. -/
def w3post (v : JsVal) : World :=
  { heap :=
      { objs :=
          [ (5, { proto := none, fields :=
                   [("bar", .vnum 1), ("foo", v), ("baz", .vnum 2)] }),
            (0, { proto := none, fields := [("baz", .vnum 2)] }),
            (1, { proto := none, fields := [("foo", v)] }),
            (2, { proto := none, fields := [] }),
            (3, { proto := none, fields := [("bar", .vnum 1), ("foo", v)] }),
            (4, { proto := none, fields := [] }) ],
        next := 6 },
    classes :=
      [ (0, { options := 0, sup := none, superOptions := none,
              extendOptions := 0, sealedOptions := 0 }),
        (1, { options := 5, sup := some 0, superOptions := some 0,
              extendOptions := 3, sealedOptions := 2 }) ] }

/-- Execution of the resolver on the stale-cache subclass scenario. -/
theorem w3run_eq (v : JsVal) (hv : v ≠ .undefined) :
    resolveConstructorOptions 2 (w3ex v) 1 = (w3post v, 5) := by
  simp [resolveConstructorOptions, w3ex, w3post, superChanged, resolveModifiedOptions,
    mergeOptions, extendFields, selfRegister, enumKeys, enumKeysN, getProp, getPropN,
    lookupObj, lookupObj.go, getOwnFields, setField, setField.go, setF, alloc, optionsOf,
    getClass, getClassList, setClass, setClassList, truthy, jsToKey, hv]

/-- Claim C3: on a subclass whose freshly resolved parent
configuration (address 0) differs by identity from the cached
`superOptions` (address 4), the resolver updates the cache to the
fresh parent configuration, merges the late-modified key `foo` (its
value differs by identity from the sealed snapshot) into
`extendOptions` in place (same address 3, fields extended), recomputes
the options as the merge of the fresh parent configuration with
`extendOptions` (fresh object at address 5), stores it as the new
class options and returns it — and the key `foo` added to the prior
options since the last seal is preserved in the new result. -/
theorem subclass_remerge_after_parent_change (v : JsVal) (hv : v ≠ .undefined) :
    resolveConstructorOptions 1 (w3ex v) 0 = (w3ex v, 0) ∧
    (getClass (resolveConstructorOptions 2 (w3ex v) 1).1 1).map CtorRec.superOptions =
      some (some 0) ∧
    (getClass (resolveConstructorOptions 2 (w3ex v) 1).1 1).map CtorRec.extendOptions =
      some 3 ∧
    lookupObj (resolveConstructorOptions 2 (w3ex v) 1).1.heap 3 =
      some { proto := none, fields := [("bar", .vnum 1), ("foo", v)] } ∧
    (resolveConstructorOptions 2 (w3ex v) 1).2 = 5 ∧
    (getClass (resolveConstructorOptions 2 (w3ex v) 1).1 1).map CtorRec.options = some 5 ∧
    lookupObj (resolveConstructorOptions 2 (w3ex v) 1).1.heap 5 =
      some { proto := none, fields := [("bar", .vnum 1), ("foo", v), ("baz", .vnum 2)] } ∧
    getProp (resolveConstructorOptions 2 (w3ex v) 1).1.heap 5 "foo" =
      getProp (w3ex v).heap 1 "foo" ∧
    (getClass (resolveConstructorOptions 2 (w3ex v) 1).1 1).map CtorRec.sealedOptions =
      some 2 := by
  rw [w3run_eq v hv]
  refine ⟨?_, ?_, ?_, ?_, rfl, ?_, ?_, ?_, ?_⟩ <;>
    simp [resolveConstructorOptions, w3ex, w3post, optionsOf, getClass, getClassList,
      lookupObj, lookupObj.go, getProp, getPropN, getOwnFields]

/-- Witness for claim C3 with the late-attached value 7. -/
theorem subclass_remerge_after_parent_change_witness :
    (JsVal.vnum 7 ≠ JsVal.undefined) ∧
    getProp (resolveConstructorOptions 2 (w3ex (.vnum 7)) 1).1.heap 5 "foo" =
      getProp (w3ex (.vnum 7)).heap 1 "foo" :=
  ⟨by decide,
   (subclass_remerge_after_parent_change (.vnum 7) (by decide)).2.2.2.2.2.2.2.1⟩

/-- A named-component scenario for the resolver: as in `w3ex` but the
subclass `extendOptions` (address 3) declare a `name` and a
`components` map (address 4), and nothing was late-modified. -/
def w7ex (nm : String) : World :=
  { heap :=
      { objs :=
          [ (0, { proto := none, fields := [("baz", .vnum 2)] }),
            (1, { proto := none, fields := [] }),
            (2, { proto := none, fields := [] }),
            (3, { proto := none, fields :=
                   [("name", .vstr nm), ("components", .ref 4)] }),
            (4, { proto := none, fields := [] }) ],
        next := 5 },
    classes :=
      [ (0, { options := 0, sup := none, superOptions := none,
              extendOptions := 0, sealedOptions := 0 }),
        (1, { options := 1, sup := some 0, superOptions := some 9,
              extendOptions := 3, sealedOptions := 2 }) ] }

/-- Claim C7: when the re-merged options of a class declare a (truthy)
`name`, the resolver registers the class itself under that name inside
the `components` map of its own merged options: afterwards the merged
options (address 5) carry that name, their `components` map is the
object at address 4, and that map sends the name to class 1 itself. -/
theorem named_class_self_registration (nm : String) (hnm : nm ≠ "") :
    (resolveConstructorOptions 2 (w7ex nm) 1).2 = 5 ∧
    getProp (resolveConstructorOptions 2 (w7ex nm) 1).1.heap 5 "name" = .vstr nm ∧
    getProp (resolveConstructorOptions 2 (w7ex nm) 1).1.heap 5 "components" = .ref 4 ∧
    getOwn (resolveConstructorOptions 2 (w7ex nm) 1).1.heap 4 nm = some (.cls 1) ∧
    (getClass (resolveConstructorOptions 2 (w7ex nm) 1).1 1).map CtorRec.options =
      some 5 := by
  refine ⟨?_, ?_, ?_, ?_, ?_⟩ <;>
    simp [resolveConstructorOptions, w7ex, superChanged, resolveModifiedOptions,
      mergeOptions, extendFields, selfRegister, enumKeys, enumKeysN, getProp, getPropN,
      lookupObj, lookupObj.go, getOwn, getOwnFields, setField, setField.go, setF, alloc,
      optionsOf, getClass, getClassList, setClass, setClassList, truthy, jsToKey, hnm]

/-- Witness for claim C7 with the name `comp`. -/
theorem named_class_self_registration_witness :
    ("comp" ≠ "") ∧
    getOwn (resolveConstructorOptions 2 (w7ex "comp") 1).1.heap 4 "comp" =
      some (.cls 1) :=
  ⟨by decide, (named_class_self_registration "comp" (by decide)).2.2.2.1⟩

/-- Counterexample to claim C8: in the `w3ex` scenario (value 7) the
resolver re-merges and stores new options (the fresh object at address
5), but `sealedOptions` still points at the old snapshot (address 2),
a different object with different contents — so after this merge,
`sealedOptions` is not a snapshot of the newly merged options. -/
theorem sealed_options_stale_after_remerge :
    (getClass (resolveConstructorOptions 2 (w3ex (.vnum 7)) 1).1 1).map
        CtorRec.sealedOptions = some 2 ∧
    (getClass (resolveConstructorOptions 2 (w3ex (.vnum 7)) 1).1 1).map
        CtorRec.options = some 5 ∧
    (resolveConstructorOptions 2 (w3ex (.vnum 7)) 1).2 = 5 ∧
    (2 : Nat) ≠ 5 ∧
    lookupObj (resolveConstructorOptions 2 (w3ex (.vnum 7)) 1).1.heap 2 ≠
      lookupObj (resolveConstructorOptions 2 (w3ex (.vnum 7)) 1).1.heap 5 := by
  decide

/-- Reading an association list after an update. -/
theorem getClassList_set (l : List (Nat × CtorRec)) (i : Nat) (c : CtorRec) (j : Nat) :
    getClassList (setClassList l i c) j = if j = i then some c else getClassList l j := by
  induction l with
  | nil =>
    simp only [setClassList, getClassList]
    by_cases h : j = i
    · subst h
      simp
    · rw [if_neg (fun h2 => h h2.symm), if_neg h]
  | cons hd t ih =>
    obtain ⟨a, b⟩ := hd
    simp only [setClassList, getClassList]
    by_cases h1 : a = i
    · rw [if_pos h1]
      simp only [getClassList]
      by_cases h2 : j = i
      · subst h2
        rw [if_pos rfl, if_pos rfl]
      · rw [if_neg h2, if_neg (fun h3 : i = j => h2 h3.symm),
          if_neg (fun h3 : a = j => h2 (h3.symm.trans h1))]
    · rw [if_neg h1]
      simp only [getClassList]
      by_cases h2 : a = j
      · have hji : ¬j = i := fun h3 => h1 (h2.trans h3)
        rw [if_pos h2, if_neg hji, if_pos h2]
      · rw [if_neg h2, ih, if_neg h2]

/-- Reading the class table after an update. -/
theorem getClass_setClass (w : World) (i : Nat) (c : CtorRec) (j : Nat) :
    getClass (setClass w i c) j = if j = i then some c else getClass w j :=
  getClassList_set w.classes i c j

/-- A well-formed table bounds the parent id of every reachable entry. -/
theorem wf_entry (l : List (Nat × CtorRec)) (ha : l.all classEntryOK = true)
    (i : Nat) (c : CtorRec) (hc : getClassList l i = some c)
    (s : Nat) (hs : c.sup = some s) : s < i := by
  induction l with
  | nil => simp [getClassList] at hc
  | cons hd t ih =>
    obtain ⟨a, b⟩ := hd
    simp only [List.all_cons, Bool.and_eq_true] at ha
    simp only [getClassList] at hc
    by_cases h1 : a = i
    · rw [if_pos h1] at hc
      injection hc with hc
      subst hc
      subst h1
      have hok := ha.1
      simp [classEntryOK, hs] at hok
      exact hok
    · rw [if_neg h1] at hc
      exact ih ha.2 hc

/-- On a well-formed world, a parent id is smaller than the child id. -/
theorem wf_spec (w : World) (hwf : WFClasses w) (i : Nat) (c : CtorRec) (s : Nat)
    (hc : getClass w i = some c) (hs : c.sup = some s) : s < i :=
  wf_entry w.classes hwf i c hc s hs

/-- Table updates with a good entry preserve well-formedness. -/
theorem wf_setClassList (l : List (Nat × CtorRec)) (ha : l.all classEntryOK = true)
    (i : Nat) (c : CtorRec) (hok : classEntryOK (i, c) = true) :
    (setClassList l i c).all classEntryOK = true := by
  induction l with
  | nil => simp [setClassList, hok]
  | cons hd t ih =>
    obtain ⟨a, b⟩ := hd
    simp only [List.all_cons, Bool.and_eq_true] at ha
    simp only [setClassList]
    by_cases h1 : a = i
    · rw [if_pos h1]
      simp [hok, ha.2]
    · rw [if_neg h1]
      simp [ha.1, ih ha.2]

/-- World-level version of update well-formedness. -/
theorem wf_setClass (w : World) (hwf : WFClasses w) (i : Nat) (c : CtorRec)
    (hok : classEntryOK (i, c) = true) : WFClasses (setClass w i c) :=
  wf_setClassList w.classes hwf i c hok

/-- The changed branch only touches the class being resolved. -/
theorem superChanged_frame (w1 : World) (i : Nat) (c1 : CtorRec) (so : Nat) (j : Nat)
    (hj : j ≠ i) : getClass (superChanged w1 i c1 so).1 j = getClass w1 j := by
  simp only [superChanged]
  split <;> simp [getClass, setClass, getClassList_set, hj]

/-- After the changed branch, the resolved class carries the new
parent cache and the merged options, everything else unchanged. -/
theorem superChanged_self (w1 : World) (i : Nat) (c1 : CtorRec) (so : Nat) :
    getClass (superChanged w1 i c1 so).1 i =
      some { c1 with superOptions := some so,
                     options := (superChanged w1 i c1 so).2 } := by
  simp only [superChanged]
  split <;> simp [getClass, setClass, getClassList_set]

/-- Any class reachable in a well-formed world is a good entry. -/
theorem wf_entryOK (w : World) (hwf : WFClasses w) (i : Nat) (c : CtorRec)
    (hc : getClass w i = some c) : classEntryOK (i, c) = true := by
  cases hs : c.sup with
  | none => simp [classEntryOK, hs]
  | some s =>
    have := wf_spec w hwf i c s hc hs
    simp [classEntryOK, hs, this]

/-- The changed branch preserves table well-formedness. -/
theorem superChanged_wf (w1 : World) (i : Nat) (c1 : CtorRec) (so : Nat)
    (hwf1 : WFClasses w1) (hok : classEntryOK (i, c1) = true) :
    WFClasses (superChanged w1 i c1 so).1 := by
  simp only [superChanged]
  split <;>
  · refine wf_setClassList _ (wf_setClassList _ hwf1 i _ ?_) i _ ?_ <;> exact hok

/-- The resolver never touches classes above the one being resolved
(parent chains descend in a well-formed world). -/
theorem resolve_frame (f : Nat) : ∀ (w : World) (i : Nat), WFClasses w →
    ∀ j, i < j → getClass (resolveConstructorOptions f w i).1 j = getClass w j := by
  induction f with
  | zero => intro w i hwf j hj; rfl
  | succ f ih =>
    intro w i hwf j hj
    simp only [resolveConstructorOptions]
    cases hc : getClass w i with
    | none => rfl
    | some c =>
      cases hs : c.sup with
      | none => simp [hs]
      | some s =>
        have hsi : s < i := wf_spec w hwf i c s hc hs
        have hfr := ih w s hwf j (lt_trans hsi hj)
        cases hc1 : getClass (resolveConstructorOptions f w s).1 i with
        | none => simpa [hs, hc1] using hfr
        | some c1 =>
          by_cases heq : c1.superOptions = some (resolveConstructorOptions f w s).2
          · simpa [hs, hc1, heq] using hfr
          · simp only [hs, hc1]
            rw [if_neg heq]
            rw [superChanged_frame _ _ _ _ _ (Nat.ne_of_gt hj)]
            exact hfr

/-- The resolver preserves table well-formedness. -/
theorem resolve_wf (f : Nat) : ∀ (w : World) (i : Nat), WFClasses w →
    WFClasses (resolveConstructorOptions f w i).1 := by
  induction f with
  | zero => intro w i hwf; exact hwf
  | succ f ih =>
    intro w i hwf
    simp only [resolveConstructorOptions]
    cases hc : getClass w i with
    | none => exact hwf
    | some c =>
      cases hs : c.sup with
      | none => simpa [hs] using hwf
      | some s =>
        have hw1 : WFClasses (resolveConstructorOptions f w s).1 := ih w s hwf
        cases hc1 : getClass (resolveConstructorOptions f w s).1 i with
        | none => simpa [hs, hc1] using hw1
        | some c1 =>
          by_cases heq : c1.superOptions = some (resolveConstructorOptions f w s).2
          · simpa [hs, hc1, heq] using hw1
          · simp only [hs, hc1]
            rw [if_neg heq]
            exact superChanged_wf _ _ _ _ hw1 (wf_entryOK _ hw1 _ _ hc1)

/-- The resolver returns exactly the `options` field of the resolved
class in the final world. -/
theorem resolve_ret (f : Nat) (w : World) (i : Nat) (hwf : WFClasses w) :
    (resolveConstructorOptions f w i).2 =
      optionsOf (resolveConstructorOptions f w i).1 i := by
  cases f with
  | zero => rfl
  | succ f =>
    simp only [resolveConstructorOptions]
    cases hc : getClass w i with
    | none => simp [optionsOf, hc]
    | some c =>
      cases hs : c.sup with
      | none => simp [hs, optionsOf, hc]
      | some s =>
        have hsi : s < i := wf_spec w hwf i c s hc hs
        have hfr := resolve_frame f w s hwf i hsi
        cases hc1 : getClass (resolveConstructorOptions f w s).1 i with
        | none =>
          rw [hfr, hc] at hc1
          exact Option.noConfusion hc1
        | some c1 =>
          have hcc : c1 = c := by
            rw [hfr, hc] at hc1
            injection hc1 with h
            exact h.symm
          subst hcc
          by_cases heq : c1.superOptions = some (resolveConstructorOptions f w s).2
          · simp [hs, hc1, heq, optionsOf]
          · simp only [hs, hc1]
            rw [if_neg heq]
            simp [optionsOf, superChanged_self]
/-- Fuel-indexed stability of a super chain. -/
def chainStable : Nat → World → Nat → Prop
  | 0, _, _ => True
  | fuel + 1, w, i =>
    match getClass w i with
    | none => True
    | some c =>
      match c.sup with
      | none => True
      | some s => chainStable fuel w s ∧ c.superOptions = some (optionsOf w s)

/-- Chain stability only depends on the classes at or below the chain
head. -/
theorem chainStable_transport (f : Nat) : ∀ (w w2 : World) (i : Nat), WFClasses w →
    (∀ j, j ≤ i → getClass w2 j = getClass w j) →
    chainStable f w i → chainStable f w2 i := by
  induction f with
  | zero => intro w w2 i _ _ _; trivial
  | succ f ih =>
    intro w w2 i hwf hag hst
    have hgi : getClass w2 i = getClass w i := hag i (le_refl i)
    simp only [chainStable] at hst ⊢
    rw [hgi]
    cases hc : getClass w i with
    | none => trivial
    | some c =>
      simp only [hc] at hst
      cases hs : c.sup with
      | none => simp [hs]
      | some s =>
        simp only [hs] at hst ⊢
        have hsi : s < i := wf_spec w hwf i c s hc hs
        refine ⟨ih w w2 s hwf (fun j hj => hag j (le_trans hj (le_of_lt hsi))) hst.1, ?_⟩
        have hopt : optionsOf w2 s = optionsOf w s := by
          rw [optionsOf, optionsOf, hag s (le_of_lt hsi)]
        rw [hopt]
        exact hst.2

/-- On a stable chain the resolver is pure: it changes nothing and
returns the current options. -/
theorem chainStable_pure (f : Nat) : ∀ (w : World) (i : Nat), chainStable f w i →
    resolveConstructorOptions f w i = (w, optionsOf w i) := by
  induction f with
  | zero => intro w i _; rfl
  | succ f ih =>
    intro w i hst
    simp only [chainStable] at hst
    simp only [resolveConstructorOptions]
    cases hc : getClass w i with
    | none => simp [optionsOf, hc]
    | some c =>
      simp only [hc] at hst
      cases hs : c.sup with
      | none => simp [hs, optionsOf, hc]
      | some s =>
        simp only [hs] at hst
        simp only [hs]
        rw [ih w s hst.1]
        simp only [hc]
        rw [if_pos hst.2]
        simp [optionsOf, hc]

/-- After one resolver run the chain of the resolved class is stable. -/
theorem resolve_post_stable (f : Nat) : ∀ (w : World) (i : Nat), WFClasses w →
    chainStable f (resolveConstructorOptions f w i).1 i := by
  induction f with
  | zero => intro w i _; trivial
  | succ f ih =>
    intro w i hwf
    simp only [resolveConstructorOptions]
    cases hc : getClass w i with
    | none => simp [chainStable, hc]
    | some c =>
      cases hs : c.sup with
      | none => simp [hs, chainStable, hc, hs]
      | some s =>
        have hsi : s < i := wf_spec w hwf i c s hc hs
        have hw1 : WFClasses (resolveConstructorOptions f w s).1 := resolve_wf f w s hwf
        have hst1 : chainStable f (resolveConstructorOptions f w s).1 s := ih w s hwf
        have hso : (resolveConstructorOptions f w s).2 =
            optionsOf (resolveConstructorOptions f w s).1 s := resolve_ret f w s hwf
        have hfr : getClass (resolveConstructorOptions f w s).1 i = getClass w i :=
          resolve_frame f w s hwf i hsi
        cases hc1 : getClass (resolveConstructorOptions f w s).1 i with
        | none =>
          rw [hfr, hc] at hc1
          exact Option.noConfusion hc1
        | some c1 =>
          have hcc : c1 = c := by
            rw [hfr, hc] at hc1
            injection hc1 with h
            exact h.symm
          subst hcc
          by_cases heq : c1.superOptions = some (resolveConstructorOptions f w s).2
          · simp only [hs, hc1]
            rw [if_pos heq]
            simp only [chainStable, hc1, hs]
            exact ⟨hst1, by rw [heq, hso]⟩
          · simp only [hs, hc1]
            rw [if_neg heq]
            simp only [chainStable]
            rw [superChanged_self]
            simp only [hs]
            refine ⟨?_, ?_⟩
            · refine chainStable_transport f _ _ s hw1 ?_ hst1
              intro j hj
              exact superChanged_frame _ _ _ _ j (Nat.ne_of_lt (lt_of_le_of_lt hj hsi))
            · have hfs : getClass (superChanged (resolveConstructorOptions f w s).1 i c1
                  (resolveConstructorOptions f w s).2).1 s =
                  getClass (resolveConstructorOptions f w s).1 s :=
                superChanged_frame _ _ _ _ s (Nat.ne_of_lt hsi)
              rw [optionsOf, hfs, ← optionsOf, ← hso]

/-- Running the resolver twice in a row gives the same world and the
same configuration object. -/
theorem resolve_idem (f : Nat) (w : World) (i : Nat) (hwf : WFClasses w) :
    resolveConstructorOptions f (resolveConstructorOptions f w i).1 i =
      resolveConstructorOptions f w i := by
  have h1 := resolve_post_stable f w i hwf
  have h2 := chainStable_pure f (resolveConstructorOptions f w i).1 i h1
  rw [h2, ← resolve_ret f w i hwf]


/-- Claim C5: calling the resolver twice in a row on the same class
(no change in between) returns the identical configuration object and
final world both times; in particular a class with no parent gets
`Class.options` back unchanged (world untouched) on every call. -/
theorem resolver_idempotent (fuel : Nat) (w : World) (i : Nat) (hwf : WFClasses w) :
    resolveConstructorOptions fuel (resolveConstructorOptions fuel w i).1 i =
      resolveConstructorOptions fuel w i ∧
    (∀ c, getClass w i = some c → c.sup = none →
      resolveConstructorOptions fuel w i = (w, c.options)) := by
  refine ⟨resolve_idem fuel w i hwf, fun c hc hs => ?_⟩
  cases fuel with
  | zero => simp [resolveConstructorOptions, optionsOf, hc]
  | succ f => simp [resolveConstructorOptions, hc, hs]

/-- Witness for claim C5 on the stale-cache scenario: the first call
re-merges, the second returns the identical world and object. -/
theorem resolver_idempotent_witness :
    WFClasses (w3ex (.vnum 7)) ∧
    resolveConstructorOptions 2 (resolveConstructorOptions 2 (w3ex (.vnum 7)) 1).1 1 =
      resolveConstructorOptions 2 (w3ex (.vnum 7)) 1 :=
  ⟨by decide, (resolver_idempotent 2 (w3ex (.vnum 7)) 1 (by decide)).1⟩

/-- Claim C10: when the freshly resolved parent configuration is
identity-equal to the cached `superOptions`, the resolver returns
`Ctor.options` and leaves the class record (options, superOptions,
extendOptions, sealedOptions) exactly as it was; the call performs no
mutation of its own beyond the recursive parent resolution, and with a
stable parent chain the whole world is untouched. -/
theorem resolver_cached_parent_noop (f : Nat) (w : World) (i s : Nat) (c : CtorRec)
    (hwf : WFClasses w) (hc : getClass w i = some c) (hs : c.sup = some s)
    (heq : c.superOptions = some (resolveConstructorOptions f w s).2) :
    resolveConstructorOptions (f + 1) w i =
      ((resolveConstructorOptions f w s).1, c.options) ∧
    getClass (resolveConstructorOptions f w s).1 i = some c ∧
    (chainStable f w s → resolveConstructorOptions (f + 1) w i = (w, c.options)) := by
  have hsi : s < i := wf_spec w hwf i c s hc hs
  have hfr : getClass (resolveConstructorOptions f w s).1 i = getClass w i :=
    resolve_frame f w s hwf i hsi
  have hgc1 : getClass (resolveConstructorOptions f w s).1 i = some c := by rw [hfr, hc]
  refine ⟨?_, hgc1, ?_⟩
  · simp only [resolveConstructorOptions, hc, hs, hgc1]
    rw [if_pos heq]
  · intro hst
    have hp := chainStable_pure f w s hst
    simp only [resolveConstructorOptions, hc, hs, hgc1]
    rw [if_pos heq, hp]

/-- A scenario where the cached parent configuration is up to date:
class 1 has `superOptions` caching exactly the parent resolution
(address 0). -/
def w10ex : World :=
  { heap :=
      { objs :=
          [ (0, { proto := none, fields := [("baz", .vnum 2)] }),
            (1, { proto := none, fields := [] }),
            (2, { proto := none, fields := [] }),
            (3, { proto := none, fields := [("bar", .vnum 1)] }) ],
        next := 4 },
    classes :=
      [ (0, { options := 0, sup := none, superOptions := none,
              extendOptions := 0, sealedOptions := 0 }),
        (1, { options := 1, sup := some 0, superOptions := some 0,
              extendOptions := 3, sealedOptions := 2 }) ] }

/-- Witness for claim C10: with the up-to-date cache the resolver
returns the current options of class 1 and the world unchanged. -/
theorem resolver_cached_parent_noop_witness :
    WFClasses w10ex ∧
    resolveConstructorOptions 2 w10ex 1 = (w10ex, 1) := by
  refine ⟨by decide, ?_⟩
  exact (resolver_cached_parent_noop 1 w10ex 1 0
      { options := 1, sup := some 0, superOptions := some 0, extendOptions := 3,
        sealedOptions := 2 }
      (by decide) (by decide) rfl (by decide)).2.2
    (by simp [chainStable, getClass, getClassList, w10ex])

/-- The changed branch never touches any `sealedOptions` field. -/
theorem superChanged_sealed (w1 : World) (i : Nat) (c1 : CtorRec) (so : Nat)
    (hc1 : getClass w1 i = some c1) (j : Nat) :
    (getClass (superChanged w1 i c1 so).1 j).map CtorRec.sealedOptions =
      (getClass w1 j).map CtorRec.sealedOptions := by
  by_cases hj : j = i
  · subst hj
    rw [superChanged_self, hc1]
    simp
  · rw [superChanged_frame _ _ _ _ _ hj]

/-- Claim C8 as amended: `resolveConstructorOptions` never updates any
`sealedOptions` field — the re-merge inside the resolver does not
re-snapshot; `sealedOptions` stays whatever the last seal (performed
outside this module) installed, which is exactly what the
modified-options diff compares against. -/
theorem resolve_never_reseals (f : Nat) : ∀ (w : World) (i j : Nat),
    (getClass (resolveConstructorOptions f w i).1 j).map CtorRec.sealedOptions =
      (getClass w j).map CtorRec.sealedOptions := by
  induction f with
  | zero => intro w i j; rfl
  | succ f ih =>
    intro w i j
    simp only [resolveConstructorOptions]
    cases hc : getClass w i with
    | none => rfl
    | some c =>
      cases hs : c.sup with
      | none => simp [hs]
      | some s =>
        have hin := ih w s j
        cases hc1 : getClass (resolveConstructorOptions f w s).1 i with
        | none => simpa [hs, hc1] using hin
        | some c1 =>
          by_cases heq : c1.superOptions = some (resolveConstructorOptions f w s).2
          · simpa [hs, hc1, heq] using hin
          · simp only [hs, hc1]
            rw [if_neg heq]
            rw [superChanged_sealed _ _ _ _ hc1 j]
            exact hin

end VueInit
